import Mathlib

/-!
Verification of the label-realignment logic of the notebook
`3c_ft_hf_token_classification.ipynb` and of the filtering stage of its
`compute_metrics` function.

The inner loop of `preprocess_dataset` walks the token-to-word map
(`word_ids`, entries are `None` or a Python int), keeps `prev_idx`
(updated on every iteration), and appends
  * `-100`               when the entry is `None`,
  * `ner_tag[word_idx]`  when `prev_idx != word_idx`,
  * `-100`               otherwise.
Python list indexing `ner_tag[word_idx]` accepts negative indices in
`[-len, -1]` (indexing from the end) and raises `IndexError` otherwise;
we model indexing by `pyGet` returning an `Option`, and the loop by
`realignFrom`, which returns `none` exactly when an `IndexError` occurs.
-/

namespace LLMResource

/-- Ignore sentinel used by the notebook for positions excluded from the loss. -/
def IGNORE : Int := -100

/-- Python list indexing semantics: a negative index counts from the end of
the list; the result is `none` exactly when Python raises `IndexError`. -/
def pyGet (L : List Int) (i : Int) : Option Int :=
  let j : Int := if i < 0 then (L.length : Int) + i else i
  if 0 ≤ j then L.get? j.toNat else none

/-- Inner loop of `preprocess_dataset`, started with `prev_idx = None`:
for each entry of the word-id list append `-100` on `None`, append
`ner_tag[word_idx]` when `prev_idx != word_idx`, else append `-100`;
`prev_idx` is updated to the current entry on every iteration.
Returns `none` when the Python code would raise `IndexError`. -/
def realignFrom (L : List Int) (prev : Option Int) : List (Option Int) → Option (List Int)
  | [] => some []
  | none :: rest => (realignFrom L none rest).map (fun A => IGNORE :: A)
  | some w :: rest =>
    if prev = some w then
      (realignFrom L (some w) rest).map (fun A => IGNORE :: A)
    else
      match pyGet L w with
      | none => none
      | some lab => (realignFrom L (some w) rest).map (fun A => lab :: A)

/-- The realigner of `preprocess_dataset` applied to one example:
word-level labels `L` (the example's `ner_tag`) and token-to-word map `M`
(the example's `word_ids`), with `prev_idx` starting as `None`. -/
def realign (L : List Int) (M : List (Option Int)) : Option (List Int) :=
  realignFrom L none M

/-- Check on a single token-to-word entry: sentinel entries are always fine,
an integer entry must be a valid (non-negative, in-range) index into `L`. -/
def validEntry (L : List Int) : Option Int → Bool
  | none => true
  | some w => decide (0 ≤ w) && decide (w < (L.length : Int))

/-- All non-sentinel entries of `M` are valid indices into `L`. -/
def validMap (L : List Int) (M : List (Option Int)) : Bool :=
  M.all (validEntry L)

/-- Label lookup used under the validity assumption (total version of `pyGet`). -/
def labelAt (L : List Int) (w : Int) : Int :=
  (pyGet L w).getD 0

/-- Total version of the realigner loop, meaningful when `validMap` holds. -/
def realignTotal (L : List Int) (prev : Option Int) : List (Option Int) → List Int
  | [] => []
  | none :: rest => IGNORE :: realignTotal L none rest
  | some w :: rest =>
    (if prev = some w then IGNORE else labelAt L w) :: realignTotal L (some w) rest

/-- Word index in effect just before position `t`: the starting `prev_idx`
at `t = 0`, otherwise the map entry at position `t - 1`. -/
def prevAt (prev : Option Int) (M : List (Option Int)) : Nat → Option Int
  | 0 => prev
  | t + 1 => (M.get? t).join

/-- Per-example filtering of the true labels in `compute_metrics`:
`[id2label[l] for l in label if l != -100]`. -/
def true_labels_one (id2label : Int → String) (label : List Int) : List String :=
  (label.filter (fun l => decide (l ≠ -100))).map id2label

/-- Per-example filtering of the predictions in `compute_metrics`:
`[id2label[p] for (p, l) in zip(prediction, label) if l != -100]`. -/
def true_predictions_one (id2label : Int → String) (prediction label : List Int) :
    List String :=
  ((prediction.zip label).filter (fun pl => decide (pl.2 ≠ -100))).map
    (fun pl => id2label pl.1)

/-- Batch-level `true_labels` of `compute_metrics`: one filtered sequence per
example, iterating over `labels`. -/
def true_labels (id2label : Int → String) (labels : List (List Int)) :
    List (List String) :=
  labels.map (true_labels_one id2label)

/-- Batch-level `true_predictions` of `compute_metrics`: one filtered sequence
per example, iterating over `zip(predictions, labels)`. -/
def true_predictions (id2label : Int → String) (predictions labels : List (List Int)) :
    List (List String) :=
  (predictions.zip labels).map (fun pl => true_predictions_one id2label pl.1 pl.2)

lemma pyGet_of_nonneg (L : List Int) (w : Int) (hw : 0 ≤ w) :
    pyGet L w = L.get? w.toNat := by
  simp only [pyGet]
  rw [if_neg (show ¬ w < 0 by omega), if_pos hw]

lemma pyGet_valid (L : List Int) (w : Int) (hw : 0 ≤ w) (hlt : w < (L.length : Int)) :
    pyGet L w = some (labelAt L w) := by
  have hlt' : w.toNat < L.length := by omega
  have h1 : pyGet L w = some (L.get ⟨w.toNat, hlt'⟩) := by
    rw [pyGet_of_nonneg L w hw, List.get?_eq_get hlt']
  rw [h1]
  simp only [labelAt, h1, Option.getD_some]

lemma realignFrom_length (L : List Int) :
    ∀ (M : List (Option Int)) (prev : Option Int) (A : List Int),
      realignFrom L prev M = some A → A.length = M.length := by
  intro M
  induction M with
  | nil =>
    intro prev A h
    simp only [realignFrom, Option.some.injEq] at h
    simp [← h]
  | cons x rest ih =>
    intro prev A h
    cases x with
    | none =>
      simp only [realignFrom] at h
      cases hr : realignFrom L none rest with
      | none => rw [hr] at h; simp at h
      | some B =>
        rw [hr] at h
        simp only [Option.map_some', Option.some.injEq] at h
        simp [← h, ih none B hr]
    | some w =>
      simp only [realignFrom] at h
      by_cases hp : prev = some w
      · rw [if_pos hp] at h
        cases hr : realignFrom L (some w) rest with
        | none => rw [hr] at h; simp at h
        | some B =>
          rw [hr] at h
          simp only [Option.map_some', Option.some.injEq] at h
          simp [← h, ih (some w) B hr]
      · rw [if_neg hp] at h
        cases hg : pyGet L w with
        | none => rw [hg] at h; exact absurd h (by simp)
        | some lab =>
          rw [hg] at h
          cases hr : realignFrom L (some w) rest with
          | none => rw [hr] at h; simp at h
          | some B =>
            rw [hr] at h
            simp only [Option.map_some', Option.some.injEq] at h
            simp [← h, ih (some w) B hr]

lemma realignTotal_length (L : List Int) :
    ∀ (M : List (Option Int)) (prev : Option Int),
      (realignTotal L prev M).length = M.length := by
  intro M
  induction M with
  | nil => intro prev; rfl
  | cons x rest ih =>
    intro prev
    cases x with
    | none => simp [realignTotal, ih]
    | some w => simp [realignTotal, ih]

lemma realignFrom_eq_total (L : List Int) :
    ∀ (M : List (Option Int)) (prev : Option Int), validMap L M = true →
      realignFrom L prev M = some (realignTotal L prev M) := by
  intro M
  induction M with
  | nil => intro prev _; rfl
  | cons x rest ih =>
    intro prev hv
    have hvx : validEntry L x = true := by
      simp only [validMap, List.all_cons, Bool.and_eq_true] at hv
      exact hv.1
    have hvr : validMap L rest = true := by
      simp only [validMap, List.all_cons, Bool.and_eq_true] at hv
      exact hv.2
    cases x with
    | none =>
      simp only [realignFrom, realignTotal, ih none hvr, Option.map_some']
    | some w =>
      have hw : 0 ≤ w ∧ w < (L.length : Int) := by
        simpa [validEntry] using hvx
      by_cases hp : prev = some w
      · simp only [realignFrom, realignTotal, if_pos hp, ih (some w) hvr,
          Option.map_some']
      · simp only [realignFrom, realignTotal, if_neg hp,
          pyGet_valid L w hw.1 hw.2, ih (some w) hvr, Option.map_some']

lemma prevAt_cons (prev x : Option Int) (M : List (Option Int)) (t : Nat) :
    prevAt prev (x :: M) (t + 1) = prevAt x M t := by
  cases t with
  | zero => cases x <;> rfl
  | succ s => rfl

lemma realignTotal_get (L : List Int) :
    ∀ (M : List (Option Int)) (prev : Option Int) (t : Nat) (e : Option Int),
      M.get? t = some e →
      (realignTotal L prev M).get? t =
        some (match e with
          | none => IGNORE
          | some w => if prevAt prev M t = some w then IGNORE else labelAt L w) := by
  intro M
  induction M with
  | nil => intro prev t e h; simp at h
  | cons x rest ih =>
    intro prev t e h
    cases t with
    | zero =>
      simp only [List.get?] at h
      cases h
      cases x with
      | none => rfl
      | some w => simp [realignTotal, prevAt]
    | succ s =>
      simp only [List.get?] at h
      have hstep : (realignTotal L prev (x :: rest)).get? (s + 1) =
          (realignTotal L x rest).get? s := by
        cases x with
        | none => rfl
        | some w => rfl
      rw [hstep, ih x s e h]
      cases e with
      | none => rfl
      | some w => rw [prevAt_cons]

lemma labelAt_eq (L : List Int) (w lab : Int) (hw : 0 ≤ w)
    (hlab : L.get? w.toNat = some lab) : labelAt L w = lab := by
  simp only [labelAt, pyGet_of_nonneg L w hw, hlab, Option.getD_some]

lemma realignTotal_get_word (L : List Int) (M : List (Option Int)) (prev : Option Int)
    (t : Nat) (w : Int) (h : M.get? t = some (some w)) :
    (realignTotal L prev M).get? t =
      some (if prevAt prev M t = some w then IGNORE else labelAt L w) :=
  realignTotal_get L M prev t (some w) h

lemma realignTotal_get_sentinel (L : List Int) (M : List (Option Int)) (prev : Option Int)
    (t : Nat) (h : M.get? t = some none) :
    (realignTotal L prev M).get? t = some IGNORE :=
  realignTotal_get L M prev t none h

lemma realignTotal_run_start (L : List Int) (M : List (Option Int)) (w lab : Int)
    (t : Nat) (hwnn : 0 ≤ w) (hlab : L.get? w.toNat = some lab)
    (h : M.get? t = some (some w))
    (hstart : t = 0 ∨ (M.get? (t - 1)).join ≠ some w) :
    (realignTotal L none M).get? t = some lab := by
  have hprev : prevAt none M t ≠ some w := by
    cases t with
    | zero => simp [prevAt]
    | succ s =>
      rcases hstart with h0 | hne
      · exact absurd h0 (Nat.succ_ne_zero s)
      · simpa [prevAt] using hne
  rw [realignTotal_get_word L M none t w h, if_neg hprev, labelAt_eq L w lab hwnn hlab]

lemma realignFrom_get_sentinel (L : List Int) :
    ∀ (M : List (Option Int)) (prev : Option Int) (A : List Int) (t : Nat),
      realignFrom L prev M = some A → M.get? t = some none →
      A.get? t = some IGNORE := by
  intro M
  induction M with
  | nil => intro prev A t _ hm; simp at hm
  | cons x rest ih =>
    intro prev A t h hm
    cases t with
    | zero =>
      have hx : x = none := by simpa using hm
      subst hx
      simp only [realignFrom] at h
      cases hr : realignFrom L none rest with
      | none => rw [hr] at h; simp at h
      | some B =>
        rw [hr] at h
        simp only [Option.map_some', Option.some.injEq] at h
        rw [← h]; rfl
    | succ s =>
      simp only [List.get?] at hm
      cases x with
      | none =>
        simp only [realignFrom] at h
        cases hr : realignFrom L none rest with
        | none => rw [hr] at h; simp at h
        | some B =>
          rw [hr] at h
          simp only [Option.map_some', Option.some.injEq] at h
          rw [← h]
          simpa using ih none B s hr hm
      | some w =>
        simp only [realignFrom] at h
        by_cases hp : prev = some w
        · rw [if_pos hp] at h
          cases hr : realignFrom L (some w) rest with
          | none => rw [hr] at h; simp at h
          | some B =>
            rw [hr] at h
            simp only [Option.map_some', Option.some.injEq] at h
            rw [← h]
            simpa using ih (some w) B s hr hm
        · rw [if_neg hp] at h
          cases hg : pyGet L w with
          | none => rw [hg] at h; simp at h
          | some lab =>
            rw [hg] at h
            cases hr : realignFrom L (some w) rest with
            | none => rw [hr] at h; simp at h
            | some B =>
              rw [hr] at h
              simp only [Option.map_some', Option.some.injEq] at h
              rw [← h]
              simpa using ih (some w) B s hr hm

lemma realignFrom_all_sentinel (L : List Int) :
    ∀ (M : List (Option Int)) (prev : Option Int), (∀ x ∈ M, x = none) →
      realignFrom L prev M = some (List.replicate M.length IGNORE) := by
  intro M
  induction M with
  | nil => intro prev _; rfl
  | cons x rest ih =>
    intro prev hall
    have hx : x = none := hall x (by simp)
    subst hx
    rw [realignFrom, ih none (fun y hy => hall y (by simp [hy]))]
    rfl

lemma pyGet_out_of_range (L : List Int) (w : Int)
    (h : (L.length : Int) ≤ w ∨ w + (L.length : Int) < 0) : pyGet L w = none := by
  rcases h with h | h
  · rw [pyGet_of_nonneg L w (by omega)]
    exact List.get?_eq_none.mpr (by omega)
  · simp only [pyGet]
    rw [if_pos (show w < 0 by omega),
      if_neg (show ¬ (0 : Int) ≤ (L.length : Int) + w by omega)]

lemma realignFrom_out_of_range (L : List Int) (w : Int)
    (hw : (L.length : Int) ≤ w ∨ w + (L.length : Int) < 0) :
    ∀ (M : List (Option Int)) (prev : Option Int), some w ∈ M → prev ≠ some w →
      realignFrom L prev M = none := by
  intro M
  induction M with
  | nil => intro prev hmem _; simp at hmem
  | cons x rest ih =>
    intro prev hmem hprev
    cases x with
    | none =>
      have hmem' : some w ∈ rest := by simpa using hmem
      rw [realignFrom, ih none hmem' (by simp), Option.map_none']
    | some v =>
      rcases eq_or_ne v w with rfl | hvw
      · simp only [realignFrom, if_neg hprev, pyGet_out_of_range L v hw]
      · have hmem' : some w ∈ rest := by
          rcases List.mem_cons.mp hmem with h | h
          · exact absurd (Option.some.inj h).symm hvw
          · exact h
        have hne : (some v : Option Int) ≠ some w := by simp [hvw]
        rw [realignFrom]
        by_cases hp : prev = some v
        · rw [if_pos hp, ih (some v) hmem' hne, Option.map_none']
        · rw [if_neg hp]
          cases hg : pyGet L v with
          | none => rfl
          | some lab =>
            rw [ih (some v) hmem' hne]
            rfl

lemma zip_filter_snd (prediction label : List Int)
    (hlen : prediction.length = label.length) :
    ((prediction.zip label).filter (fun pl => decide (pl.2 ≠ -100))).map Prod.snd =
      label.filter (fun l => decide (l ≠ -100)) := by
  induction prediction generalizing label with
  | nil =>
    cases label with
    | nil => rfl
    | cons b bs => simp at hlen
  | cons a as ih =>
    cases label with
    | nil => simp at hlen
    | cons b bs =>
      have h' : as.length = bs.length := by simpa using hlen
      simp only [List.zip_cons_cons, List.filter_cons]
      by_cases hb : b = (-100 : Int)
      · simpa [hb] using ih bs h'
      · simpa [hb] using ih bs h'

lemma true_one_length_eq (f : Int → String) (prediction label : List Int)
    (hlen : prediction.length = label.length) :
    (true_predictions_one f prediction label).length =
      (true_labels_one f label).length := by
  have h := congrArg List.length (zip_filter_snd prediction label hlen)
  simp only [List.length_map] at h
  simp only [true_predictions_one, true_labels_one, List.length_map, h]

lemma true_lengths_batch (f : Int → String) :
    ∀ (preds labels : List (List Int)), preds.length = labels.length →
      (∀ p ∈ preds.zip labels, p.1.length = p.2.length) →
      (true_predictions f preds labels).map List.length =
        (true_labels f labels).map List.length := by
  intro preds
  induction preds with
  | nil =>
    intro labels hlen _
    cases labels with
    | nil => rfl
    | cons b bs => simp at hlen
  | cons a as ih =>
    intro labels hlen hex
    cases labels with
    | nil => simp at hlen
    | cons b bs =>
      have h' : as.length = bs.length := by simpa using hlen
      have hab : a.length = b.length := hex (a, b) (by simp)
      have hrest : ∀ p ∈ as.zip bs, p.1.length = p.2.length := by
        intro p hp
        exact hex p (by simp [hp])
      simp only [true_predictions, true_labels, List.zip_cons_cons, List.map_cons,
        List.cons.injEq]
      exact ⟨true_one_length_eq f a b hab,
        by simpa [true_predictions, true_labels] using ih bs h' hrest⟩

/-- Claim C1: within any maximal contiguous run of identical word index `w` in
the token-to-word map (all non-sentinel entries valid), the realigner emits the
true label `L[w]` exactly at the first position of the run and the `IGNORE`
sentinel at every other position of the run. -/
theorem realign_run_emits_label_only_at_first (L : List Int) (M : List (Option Int))
    (w lab : Int) (a b : Nat)
    (hvalid : validMap L M = true)
    (hwnn : 0 ≤ w) (hlab : L.get? w.toNat = some lab) (hlabne : lab ≠ IGNORE)
    (hab : a < b) (hble : b ≤ M.length)
    (hrun : ∀ t ∈ Finset.Ico a b, M.get? t = some (some w))
    (hleft : a = 0 ∨ (M.get? (a - 1)).join ≠ some w)
    (hright : b = M.length ∨ (M.get? b).join ≠ some w) :
    ∃ A, realign L M = some A ∧ A.get? a = some lab ∧
      (∀ t, a < t → t < b → A.get? t = some IGNORE) ∧
      (∀ t, a ≤ t → t < b → A.get? t = some lab → t = a) := by
  have hMa : M.get? a = some (some w) := hrun a (Finset.mem_Ico.mpr ⟨le_refl a, hab⟩)
  have hfirst : (realignTotal L none M).get? a = some lab :=
    realignTotal_run_start L M w lab a hwnn hlab hMa hleft
  have hrest : ∀ t, a < t → t < b → (realignTotal L none M).get? t = some IGNORE := by
    intro t hat htb
    have hMt : M.get? t = some (some w) := hrun t (Finset.mem_Ico.mpr ⟨by omega, htb⟩)
    have hMt1 : M.get? (t - 1) = some (some w) :=
      hrun (t - 1) (Finset.mem_Ico.mpr ⟨by omega, by omega⟩)
    have hprev : prevAt none M t = some w := by
      cases t with
      | zero => omega
      | succ s =>
        have hs : M.get? s = some (some w) := by simpa using hMt1
        show (M.get? s).join = some w
        rw [hs]
        rfl
    rw [realignTotal_get_word L M none t w hMt, if_pos hprev]
  refine ⟨realignTotal L none M, realignFrom_eq_total L M none hvalid, hfirst, hrest, ?_⟩
  intro t hat htb hlabt
  by_contra hne
  have hat' : a < t := by omega
  rw [hrest t hat' htb] at hlabt
  exact hlabne (Option.some.inj hlabt).symm

theorem realign_run_emits_label_only_at_first_witness :
    ∃ A, realign [5] [none, some 0, some 0, none] = some A ∧
      A.get? 1 = some 5 ∧
      (∀ t, 1 < t → t < 3 → A.get? t = some IGNORE) ∧
      (∀ t, 1 ≤ t → t < 3 → A.get? t = some 5 → t = 1) :=
  realign_run_emits_label_only_at_first [5] [none, some 0, some 0, none] 0 5 1 3
    (by decide) (by decide) (by decide) (by decide) (by decide) (by decide)
    (by decide) (by decide) (by decide)

/-- Claim C2: whenever every non-sentinel entry of the token-to-word map is a
valid index into the label sequence, the realigner succeeds and its output has
exactly the same length as the map (one entry appended per map entry). -/
theorem realign_preserves_length (L : List Int) (M : List (Option Int))
    (hvalid : validMap L M = true) :
    ∃ A, realign L M = some A ∧ A.length = M.length :=
  ⟨realignTotal L none M, realignFrom_eq_total L M none hvalid,
    realignTotal_length L M none⟩

theorem realign_preserves_length_witness :
    ∃ A, realign [1, 2] [none, some 0, some 1, some 1] = some A ∧ A.length = 4 :=
  realign_preserves_length [1, 2] [none, some 0, some 1, some 1] (by decide)

/-- Claim C3: at every position whose token-to-word entry is the sentinel
`None`, any output the realigner produces carries the `IGNORE` value. -/
theorem realign_sentinel_is_ignore (L : List Int) (M : List (Option Int))
    (A : List Int) (t : Nat) (hA : realign L M = some A)
    (ht : M.get? t = some none) : A.get? t = some IGNORE :=
  realignFrom_get_sentinel L M none A t hA ht

theorem realign_sentinel_is_ignore_witness :
    ([IGNORE, 5, IGNORE, IGNORE] : List Int).get? 3 = some IGNORE :=
  realign_sentinel_is_ignore [5] [none, some 0, some 0, none]
    [IGNORE, 5, IGNORE, IGNORE] 3 (by decide) (by decide)

/-- Claim C4 counterexample: the entry `-1` is outside `[0, len(L))`, yet the
realigner does not fail: Python's negative indexing silently resolves
`ner_tag[-1]` to the last label, so `realign [7] [some (-1)]` returns a label. -/
theorem realign_negative_index_counterexample :
    validEntry [7] (some (-1)) = false ∧ realign [7] [some (-1)] = some [7] := by
  decide

/-- Claim C4 (amended): the realigner fails fast whenever some entry `w` of the
map satisfies `w ≥ len(L)` or `w < -len(L)`; entries in `[-len(L), -1]` are
instead resolved silently by Python's from-the-end indexing. -/
theorem realign_out_of_range_fails (L : List Int) (M : List (Option Int)) (w : Int)
    (hmem : some w ∈ M) (hw : (L.length : Int) ≤ w ∨ w + (L.length : Int) < 0) :
    realign L M = none :=
  realignFrom_out_of_range L w hw M none hmem (by simp)

theorem realign_out_of_range_fails_witness :
    realign [1, 2] [some 0, some 5] = none :=
  realign_out_of_range_fails [1, 2] [some 0, some 5] 5 (by decide) (by decide)

/-- Claim C5: the realigner is a pure, deterministic function of `(L, M)`: two
invocations on the same input are the same value, and the embedding carries no
state other than its two arguments. -/
theorem realign_deterministic (L : List Int) (M : List (Option Int)) :
    realign L M = realign L M := rfl

/-- Claim C6: on `L = [1,2,3,4,5,6]` and
`M = [None,0,1,1,2,2,2,3,4,5,5,5,None]` the realigner returns the 13-element
sequence with the real label only at each run's first token, not the collapsed
8-element sequence suggested by the code comment. -/
theorem realign_scenario_two :
    realign [1, 2, 3, 4, 5, 6]
        [none, some 0, some 1, some 1, some 2, some 2, some 2, some 3, some 4,
          some 5, some 5, some 5, none] =
      some [IGNORE, 1, 2, IGNORE, 3, IGNORE, IGNORE, 4, 5, 6, IGNORE, IGNORE, IGNORE] ∧
    realign [1, 2, 3, 4, 5, 6]
        [none, some 0, some 1, some 1, some 2, some 2, some 2, some 3, some 4,
          some 5, some 5, some 5, none] ≠
      some [IGNORE, 1, 2, 3, 4, 5, 6, IGNORE] := by
  decide

/-- Claim C7: with an empty word-label sequence and a token-to-word map made
only of sentinels, the realigner terminates without any index error and
returns all-`IGNORE` output of the same length as the map. -/
theorem realign_empty_words_all_ignore (M : List (Option Int))
    (hM : ∀ x ∈ M, x = none) :
    realign [] M = some (List.replicate M.length IGNORE) :=
  realignFrom_all_sentinel [] M none hM

theorem realign_empty_words_all_ignore_witness :
    realign [] [none, none] = some (List.replicate 2 IGNORE) :=
  realign_empty_words_all_ignore [none, none] (by decide)

/-- Claim C8: two non-adjacent runs of the same word index are not merged:
the first position of each run independently receives the real label, the
decision using only the immediately preceding position's word index. -/
theorem realign_nonadjacent_runs_not_merged (L : List Int) (M : List (Option Int))
    (w lab : Int) (t1 t2 : Nat)
    (hvalid : validMap L M = true)
    (hwnn : 0 ≤ w) (hlab : L.get? w.toNat = some lab)
    (hlt : t1 < t2)
    (h1 : M.get? t1 = some (some w)) (h2 : M.get? t2 = some (some w))
    (hstart1 : t1 = 0 ∨ (M.get? (t1 - 1)).join ≠ some w)
    (hstart2 : (M.get? (t2 - 1)).join ≠ some w) :
    ∃ A, realign L M = some A ∧ A.get? t1 = some lab ∧ A.get? t2 = some lab :=
  ⟨realignTotal L none M, realignFrom_eq_total L M none hvalid,
    realignTotal_run_start L M w lab t1 hwnn hlab h1 hstart1,
    realignTotal_run_start L M w lab t2 hwnn hlab h2 (Or.inr hstart2)⟩

theorem realign_nonadjacent_runs_not_merged_witness :
    ∃ A, realign [5, 6] [some 0, some 1, some 0] = some A ∧
      A.get? 0 = some 5 ∧ A.get? 2 = some 5 :=
  realign_nonadjacent_runs_not_merged [5, 6] [some 0, some 1, some 0] 0 5 0 2
    (by decide) (by decide) (by decide) (by decide) (by decide) (by decide)
    (by decide) (by decide)

/-- Claim C9: `compute_metrics` filters predictions and true labels with the
same predicate on the true label id (`l != -100`), so when the per-example
lengths agree a position survives in `true_predictions` iff it survives in
`true_labels`, the filtered sequences have equal lengths example by example,
and no `IGNORE` value survives the filter. -/
theorem compute_metrics_filter_agree (id2label : Int → String)
    (predictions labels : List (List Int))
    (hlen : predictions.length = labels.length)
    (hex : ∀ p ∈ predictions.zip labels, p.1.length = p.2.length) :
    (∀ p ∈ predictions.zip labels,
      ((p.1.zip p.2).filter (fun pl => decide (pl.2 ≠ -100))).map Prod.snd =
        p.2.filter (fun l => decide (l ≠ -100))) ∧
    (true_predictions id2label predictions labels).map List.length =
      (true_labels id2label labels).map List.length ∧
    (∀ p ∈ predictions.zip labels,
      ∀ l ∈ p.2.filter (fun l => decide (l ≠ -100)), l ≠ IGNORE) := by
  refine ⟨?_, true_lengths_batch id2label predictions labels hlen hex, ?_⟩
  · intro p hp
    exact zip_filter_snd p.1 p.2 (hex p hp)
  · intro p _ l hl
    have hdec := List.of_mem_filter hl
    simpa [IGNORE] using of_decide_eq_true hdec

theorem compute_metrics_filter_agree_witness :
    (∀ p ∈ ([[(3 : Int), 1]].zip [[(0 : Int), -100]]),
      ((p.1.zip p.2).filter (fun pl => decide (pl.2 ≠ -100))).map Prod.snd =
        p.2.filter (fun l => decide (l ≠ -100))) ∧
    (true_predictions (fun _ => "x") [[(3 : Int), 1]] [[(0 : Int), -100]]).map
        List.length =
      (true_labels (fun _ => "x") [[(0 : Int), -100]]).map List.length ∧
    (∀ p ∈ ([[(3 : Int), 1]].zip [[(0 : Int), -100]]),
      ∀ l ∈ p.2.filter (fun l => decide (l ≠ -100)), l ≠ IGNORE) :=
  compute_metrics_filter_agree (fun _ => "x") [[3, 1]] [[0, -100]]
    (by decide) (by decide)

/-- Claim C10: `prev_idx` is updated on sentinel positions too (becoming
`None`), so when the same word index appears immediately before and after a
run of sentinels, the first token after the sentinel run receives the real
label again rather than `IGNORE`. -/
theorem realign_sentinel_resets_prev (L : List Int) (M : List (Option Int))
    (w lab : Int) (t1 t2 : Nat)
    (hvalid : validMap L M = true)
    (hwnn : 0 ≤ w) (hlab : L.get? w.toNat = some lab)
    (h1 : M.get? t1 = some (some w)) (h2 : M.get? t2 = some (some w))
    (hlt : t1 + 1 < t2)
    (hsent : ∀ t ∈ Finset.Ioo t1 t2, M.get? t = some none) :
    ∃ A, realign L M = some A ∧ A.get? t2 = some lab := by
  refine ⟨realignTotal L none M, realignFrom_eq_total L M none hvalid, ?_⟩
  apply realignTotal_run_start L M w lab t2 hwnn hlab h2
  right
  have hm : M.get? (t2 - 1) = some none :=
    hsent (t2 - 1) (Finset.mem_Ioo.mpr ⟨by omega, by omega⟩)
  rw [hm]
  simp

theorem realign_sentinel_resets_prev_witness :
    ∃ A, realign [5] [some 0, none, some 0] = some A ∧ A.get? 2 = some 5 :=
  realign_sentinel_resets_prev [5] [some 0, none, some 0] 0 5 0 2
    (by decide) (by decide) (by decide) (by decide) (by decide) (by decide)
    (by decide)

end LLMResource
